import Mathlib

/-!
Verification of the task-group coordination core of go-pogo/webapp.

The repository contains several near-duplicate "group" implementations:
* `rungroup.Group` (src/rungroup/rungroup.go): signal-bridged, cancel-on-first-error,
  whose `Wait` blocks on the shared context's done channel;
* `ctxgroup.Group` (src/ctxgroup/ctxgroup.go): never-cancel-on-error, `Wait` blocks
  until all task goroutines returned;
* `contextgroup.Group` (src/unnamed/part_004): never-cancel when built with `New`,
  cancel-on-first-error and signal-bridged when built with `WithNotifyContext`;
* the `Shutdown`/`ShutdownTimeout`/`Run` drivers (src/exec.go, both variants).

The embedding below models a group execution as a fold over a schedule of events
(task completions and OS signal arrivals).  Pure wrapper code (nil checks, default
signal sets, context plumbing) is translated directly from the Go source.  The
behavior of the external dependency github.com/go-pogo/errors (errgroup, errlist,
Wrap), whose source is not part of this repository, is modelled from the spec and
from the doc comments in the repository that describe it; such definitions carry a
doc comment starting with "Modelled from the spec".
-/

namespace Webapp

/-- OS signals, as used by the groups (syscall.SIGINT, syscall.SIGTERM, others). -/
inductive Sig where
  | sigint : Sig
  | sigterm : Sig
  | other : Nat → Sig
  deriving DecidableEq, Repr

/-- Error values: plain messages, the generic context-canceled error, wrapped
errors (go-pogo errors.Wrap) and multi errors (go-pogo errlist combined). -/
inductive Err where
  | msg : String → Err
  | canceled : Err
  | wrap : String → Err → Err
  | multi : List Err → Err
  deriving Repr

/-- The spec's CancellationCause taxonomy (spec section 3): the reason the first
successful cancellation of the shared context fired.  `taskErrors` carries the
errors collected at that moment (explicit-task-error), `plain` is a cancel with
no specific cause (the cancel issued when the group finishes normally). -/
inductive Cause where
  | taskErrors : List Err → Cause
  | signalReceived : Sig → Cause
  | deadlineExceeded : Cause
  | parentCancelled : Cause
  | plain : Cause
  deriving Repr

/-- Go context cancellation semantics: the first cancellation records its cause,
every later cancellation request is a no-op (context.CancelFunc is idempotent). -/
def cancelFirst (c : Option Cause) (k : Cause) : Option Cause :=
  match c with
  | some c0 => some c0
  | none => some k

/-- Modelled from the spec (section 4.3, combined()): the combined error of the
go-pogo errlist is nil iff no error was collected, a single collected error is
exposed as itself, several are exposed as a multi error preserving order. -/
def combined (es : List Err) : Option Err :=
  match es with
  | [] => none
  | [e] => some e
  | es => some (.multi es)

/-- Modelled from the spec: go-pogo errors.Wrap returns nil for a nil error and
otherwise wraps the error with the given message, preserving the original. -/
def errorsWrap (m : String) (e : Option Err) : Option Err :=
  match e with
  | none => none
  | some e => some (.wrap m e)

/-- A set of submitted tasks: `n` tasks, task `i` returning `outcome i`
(none models a nil error) when it completes. -/
structure Tasks where
  n : Nat
  outcome : Nat → Option Err

/-- Events observed while a group is running: task `i` returns control, or an
OS signal arrives. -/
inductive Event where
  | taskDone : Nat → Event
  | sigArrive : Sig → Event
  deriving DecidableEq, Repr

/-- The shared state of a running group: the indices of tasks that have returned
(in completion order), the collected errors (in completion order of the failing
tasks), the recorded cancellation cause of the shared context, and whether the
OS signal subscription is still registered. -/
structure RunState where
  returned : List Nat
  errs : List Err
  cause : Option Cause
  notifying : Bool

/-- A group's cancellation policy: whether a task error cancels the shared
context (contextgroup.WithNotifyContext / rungroup), and the watched signals. -/
structure GPolicy where
  cancelOnErr : Bool
  sigs : List Sig

/-- Whether a registered subscription relays an incoming signal: per the
documented semantics of os/signal.Notify, a subscription registered with no
signals at all relays every incoming signal; otherwise exactly the listed
signals are relayed. -/
def relays (sigs : List Sig) (s : Sig) : Prop :=
  sigs = [] ∨ s ∈ sigs

instance (sigs : List Sig) (s : Sig) : Decidable (relays sigs s) := by
  unfold relays
  infer_instance

/-- One step of a contextgroup-style run, translated from contextgroup.Group.Go
(src/unnamed/part_004) and signal.NotifyContext:
* a task completion appends the task to the returned list (each task runs once),
  records its non-nil error, and, if the group cancels on error (g.cancel != nil),
  cancels the shared context; the recorded cause is the spec's abstraction
  explicit-task-error carrying the errors collected so far;
* a relayed signal, while the subscription is registered, cancels the shared
  context with cause signal-received (signal.Notify relays every signal when
  the registered list is empty, and exactly the listed ones otherwise). -/
def cgStep (T : Tasks) (G : GPolicy) (st : RunState) : Event → RunState
  | .taskDone i =>
    if i < T.n ∧ i ∉ st.returned then
      match T.outcome i with
      | none => { st with returned := st.returned ++ [i] }
      | some e =>
        { st with
            returned := st.returned ++ [i]
            errs := st.errs ++ [e]
            cause :=
              if G.cancelOnErr then
                cancelFirst st.cause (.taskErrors (st.errs ++ [e]))
              else st.cause }
    else st
  | .sigArrive s =>
    if st.notifying ∧ relays G.sigs s then
      { st with cause := cancelFirst st.cause (.signalReceived s) }
    else st

/-- Initial state of a contextgroup run: nothing returned, no errors, context
not cancelled; the signal subscription is registered iff the group was built
with WithNotifyContext (which is also when g.cancel is non-nil). -/
def cgInit (G : GPolicy) : RunState :=
  { returned := [], errs := [], cause := none, notifying := G.cancelOnErr }

def cgRunFrom (T : Tasks) (G : GPolicy) (st : RunState) (sched : List Event) : RunState :=
  sched.foldl (cgStep T G) st

def cgRun (T : Tasks) (G : GPolicy) (sched : List Event) : RunState :=
  cgRunFrom T G (cgInit G) sched

/-- All submitted tasks have returned control (the condition on which
sync.WaitGroup-backed errgroup.Wait unblocks). -/
def allReturned (T : Tasks) (st : RunState) : Prop :=
  ∀ i < T.n, i ∈ st.returned

instance (T : Tasks) (st : RunState) : Decidable (allReturned T st) :=
  Nat.decidableBallLT T.n fun i _ => i ∈ st.returned

/-- First index at or after `k` (within `fuel` candidates) satisfying `p`. -/
def waitIdxAux (p : Nat → Bool) : Nat → Nat → Option Nat
  | 0, _ => none
  | fuel + 1, k => if p k then some k else waitIdxAux p fuel (k + 1)

/-- The point at which contextgroup.Group.Wait (src/unnamed/part_004, via
wg.Wait) unblocks, starting from state `st`: the first prefix of the schedule
after which every task has returned.  `none` models a Wait that is still
blocked at the end of the schedule. -/
def cgWaitIdxFrom (T : Tasks) (G : GPolicy) (st : RunState) (sched : List Event) : Option Nat :=
  waitIdxAux (fun k => decide (allReturned T (cgRunFrom T G st (sched.take k)))) (sched.length + 1) 0

def cgWaitIdx (T : Tasks) (G : GPolicy) (sched : List Event) : Option Nat :=
  cgWaitIdxFrom T G (cgInit G) sched

/-- What contextgroup.Group.Wait does after wg.Wait returns: if the group was
built with WithNotifyContext it calls the deferred g.cancel(), which cancels the
shared context (plain cause) and unregisters the signal subscription. -/
def cgWaitPost (G : GPolicy) (st : RunState) : RunState :=
  if G.cancelOnErr then
    { st with cause := cancelFirst st.cause .plain, notifying := false }
  else st

/-- The finish step of rungroup.Group.Wait's helper goroutine
(src/rungroup/rungroup.go): once all tasks have returned, g.grp.Wait() returns,
the deferred g.stopNotify() unregisters the signal subscription, and the
errgroup cancels its context, recording the collected errors as the cause
(modelled from the spec and from the comment in rungroup.Wait: a run that
collected no errors cancels with no specific cause). -/
def rgFinish (T : Tasks) (st : RunState) : RunState :=
  if allReturned T st then
    { st with
        notifying := false
        cause := cancelFirst st.cause
          (if st.errs.isEmpty then .plain else .taskErrors st.errs) }
  else st

/-- One step of a rungroup run: the shared context behaves like a
cancel-on-first-error contextgroup (errgroup.WithContext cancels on the first
task error; signal.NotifyContext cancels on a watched signal), followed by the
finish step once every task has returned. -/
def rgStep (T : Tasks) (sigs : List Sig) (st : RunState) (e : Event) : RunState :=
  rgFinish T (cgStep T ⟨true, sigs⟩ st e)

/-- Initial state of a rungroup run: rungroup always registers the signal
subscription; with zero tasks the helper goroutine finishes immediately. -/
def rgInit (T : Tasks) : RunState :=
  rgFinish T { returned := [], errs := [], cause := none, notifying := true }

def rgRunFrom (T : Tasks) (sigs : List Sig) (st : RunState) (sched : List Event) : RunState :=
  sched.foldl (rgStep T sigs) st

def rgRun (T : Tasks) (sigs : List Sig) (sched : List Event) : RunState :=
  rgRunFrom T sigs (rgInit T) sched

/-- The point at which rungroup.Group.Wait unblocks, starting from `st`:
it blocks on the done channel of the shared context
(src/rungroup/rungroup.go lines 62-74), so it returns at the first prefix of
the schedule after which the context is cancelled, whether or not tasks are
still running. -/
def rgWaitIdxFrom (T : Tasks) (sigs : List Sig) (st : RunState) (sched : List Event) : Option Nat :=
  waitIdxAux (fun k => (rgRunFrom T sigs st (sched.take k)).cause.isSome) (sched.length + 1) 0

def rgWaitIdx (T : Tasks) (sigs : List Sig) (sched : List Event) : Option Nat :=
  rgWaitIdxFrom T sigs (rgInit T) sched

/-- Modelled from the spec: the error value rungroup.Group.Wait returns, namely
what context.Cause of the shared context exposes for each recorded cause.  A
task-error cancellation exposes the collected errors combined; a signal (the
plain context.Canceled of signal.NotifyContext, see the rungroup test) and the
other external causes expose the canceled error; normal completion without
errors yields a nil result (spec sections 4.4 and 8, zero-task and success
cases). -/
def causeResult (c : Option Cause) : Option Err :=
  match c with
  | none => none
  | some (.taskErrors es) => combined es
  | some (.signalReceived _) => some .canceled
  | some .deadlineExceeded => some .canceled
  | some .parentCancelled => some .canceled
  | some .plain => none

/-- The result of rungroup.Group.Wait: defined at the index where the done
channel fires, exposing the recorded cause. -/
def rgWaitResult (T : Tasks) (sigs : List Sig) (sched : List Event) : Option (Option Err) :=
  (rgWaitIdx T sigs sched).map fun k => causeResult (rgRun T sigs (sched.take k)).cause

/-- Go context values as the groups build and pass them: the background
context, a caller-supplied context, a context derived by signal.NotifyContext,
and a context derived by context.WithTimeout. -/
inductive GoCtx where
  | background : GoCtx
  | external : Nat → GoCtx
  | notifyDerived : GoCtx → List Sig → GoCtx
  | timeoutDerived : GoCtx → Nat → GoCtx
  deriving DecidableEq, Repr

/-- Whether a context carries a deadline (context.WithTimeout introduces one;
derived contexts inherit the parent's deadline). -/
def hasDeadline : GoCtx → Bool
  | .background => false
  | .external _ => false
  | .notifyDerived p _ => hasDeadline p
  | .timeoutDerived _ _ => true

/-- Translated from rungroup.Group.init and contextgroup.WithNotifyContext:
the nil-slice check on the variadic signal argument.  A call without signal
arguments passes a nil slice (`none`); an explicitly empty but non-nil slice is
`some []` and is kept as is. -/
def defaultSignals (signals : Option (List Sig)) : List Sig :=
  match signals with
  | none => [Sig.sigint, Sig.sigterm]
  | some l => l

/-- The construction-time fields of a rungroup.Group after init
(src/rungroup/rungroup.go lines 45-57): the watched signal set and the shared
context passed to tasks. -/
structure RGroupData where
  sigs : List Sig
  ctx : GoCtx
  deriving DecidableEq, Repr

/-- Translated from rungroup.Group.init: a nil parent context is replaced by
context.Background, a nil signal slice by the default set; the shared context
is derived from signal.NotifyContext (the further errgroup.WithContext
derivation keeps the same values). -/
def rungroupInit (parent : Option GoCtx) (signals : Option (List Sig)) : RGroupData :=
  let ctx := match parent with
    | none => GoCtx.background
    | some c => c
  let sigs := defaultSignals signals
  { sigs := sigs, ctx := .notifyDerived ctx sigs }

/-- The context a rungroup task receives: rungroup.Group.Go always passes the
group's derived context, which exists after init. -/
def rungroupTaskCtx (g : RGroupData) : Option GoCtx := some g.ctx

/-- Translated from ctxgroup.Group.context (src/ctxgroup/ctxgroup.go lines
30-35): the per-call nil check replacing a nil stored context by
context.Background. -/
def ctxgroupContext (stored : Option GoCtx) : GoCtx :=
  match stored with
  | none => .background
  | some c => c

/-- The context a ctxgroup task receives: ctxgroup.Group.Go passes
g.context(), which is never nil. -/
def ctxgroupTaskCtx (stored : Option GoCtx) : Option GoCtx :=
  some (ctxgroupContext stored)

/-- The construction-time fields of a contextgroup.Group (src/unnamed/part_004):
whether the errgroup pointer is set, the stored context, whether the cancel
function is set (WithNotifyContext), and the watched signal set. -/
structure CtxGroupData where
  wgSet : Bool
  ctx : Option GoCtx
  hasCancel : Bool
  sigs : List Sig
  deriving DecidableEq, Repr

/-- The zero value of contextgroup.Group: no errgroup, nil context, nil cancel. -/
def contextgroupZero : CtxGroupData :=
  { wgSet := false, ctx := none, hasCancel := false, sigs := [] }

/-- Translated from contextgroup.Group.init (src/unnamed/part_004 lines 32-39):
the once-guarded lazy initialization fills in the errgroup and the background
context only when the errgroup pointer is still nil. -/
def contextgroupInit (g : CtxGroupData) : CtxGroupData :=
  if g.wgSet then g else { g with wgSet := true, ctx := some .background }

/-- Translated from contextgroup.New (src/unnamed/part_004): stores the given
context as is, with no nil check. -/
def contextgroupNew (ctx : Option GoCtx) : CtxGroupData :=
  { wgSet := true, ctx := ctx, hasCancel := false, sigs := [] }

/-- Translated from contextgroup.WithNotifyContext (src/unnamed/part_004
lines 56-64): applies the default signal set only to a nil slice and derives
the context from signal.NotifyContext. -/
def withNotifyContext (parent : GoCtx) (signals : Option (List Sig)) : CtxGroupData :=
  let sigs := defaultSignals signals
  { wgSet := true, ctx := some (.notifyDerived parent sigs), hasCancel := true, sigs := sigs }

/-- The context a contextgroup task receives: contextgroup.Group.Go calls
g.init() and then passes g.ctx to the task unguarded. -/
def contextgroupTaskCtx (g : CtxGroupData) : Option GoCtx :=
  (contextgroupInit g).ctx

/-- The run policy of a contextgroup: a task error cancels the shared context
iff g.cancel is non-nil (contextgroup.Group.Go), and only the watched signals
can cancel it. -/
def policyOf (g : CtxGroupData) : GPolicy :=
  { cancelOnErr := g.hasCancel, sigs := g.sigs }

/-- Translated from src/exec.go: the message Shutdown wraps its result with. -/
def ErrDuringShutdown : String := "an error occurred during shutdown"

/-- The group Shutdown runs its targets in (both variants of src/exec.go): a
plain errgroup / contextgroup.New group, so no cancel-on-error and no signal
subscription. -/
def shutdownPolicy : GPolicy := { cancelOnErr := false, sigs := [] }

/-- The context Shutdown passes to every target (src/exec.go): the caller's
context unchanged. -/
def shutdownTaskCtx (ctx : GoCtx) : GoCtx := ctx

/-- The context ShutdownTimeout passes to Shutdown (src/exec.go lines 45-49):
derived from the caller's context by context.WithTimeout. -/
def shutdownTimeoutCtx (ctx : GoCtx) (d : Nat) : GoCtx := .timeoutDerived ctx d

/-- The result of Shutdown (src/exec.go): the group's combined error at the
point Wait unblocks, wrapped by errors.Wrap with ErrDuringShutdown. -/
def shutdownWait (T : Tasks) (sched : List Event) : Option (Option Err) :=
  (cgWaitIdx T shutdownPolicy sched).map fun k =>
    errorsWrap ErrDuringShutdown (combined (cgRun T shutdownPolicy (sched.take k)).errs)

theorem cancelFirst_of_some (c : Cause) (k : Cause) :
    cancelFirst (some c) k = some c := rfl

theorem cancelFirst_isSome (c : Option Cause) (k : Cause) :
    (cancelFirst c k).isSome := by
  cases c <;> rfl

theorem combined_eq_none_iff (es : List Err) : combined es = none ↔ es = [] := by
  match es with
  | [] => simp [combined]
  | [e] => simp [combined]
  | e1 :: e2 :: es => simp [combined]

theorem errorsWrap_eq_none_iff (m : String) (e : Option Err) :
    errorsWrap m e = none ↔ e = none := by
  cases e <;> simp [errorsWrap]

theorem cgStep_taskDone_skip (T : Tasks) (G : GPolicy) (st : RunState) (i : Nat)
    (h : ¬(i < T.n ∧ i ∉ st.returned)) :
    cgStep T G st (.taskDone i) = st := by
  simp only [cgStep, if_neg h]

theorem cgStep_taskDone_none (T : Tasks) (G : GPolicy) (st : RunState) (i : Nat)
    (h : i < T.n ∧ i ∉ st.returned) (ho : T.outcome i = none) :
    cgStep T G st (.taskDone i) = { st with returned := st.returned ++ [i] } := by
  simp only [cgStep, if_pos h, ho]

theorem cgStep_taskDone_some (T : Tasks) (G : GPolicy) (st : RunState) (i : Nat) (e : Err)
    (h : i < T.n ∧ i ∉ st.returned) (ho : T.outcome i = some e) :
    cgStep T G st (.taskDone i) =
      { st with
          returned := st.returned ++ [i]
          errs := st.errs ++ [e]
          cause :=
            if G.cancelOnErr then
              cancelFirst st.cause (.taskErrors (st.errs ++ [e]))
            else st.cause } := by
  simp only [cgStep, if_pos h, ho]

theorem cgStep_sig_on (T : Tasks) (G : GPolicy) (st : RunState) (s : Sig)
    (h : st.notifying ∧ relays G.sigs s) :
    cgStep T G st (.sigArrive s) =
      { st with cause := cancelFirst st.cause (.signalReceived s) } := by
  simp only [cgStep, if_pos h]

theorem cgStep_sig_off (T : Tasks) (G : GPolicy) (st : RunState) (s : Sig)
    (h : ¬(st.notifying ∧ relays G.sigs s)) :
    cgStep T G st (.sigArrive s) = st := by
  simp only [cgStep, if_neg h]

theorem cgStep_returned_mono (T : Tasks) (G : GPolicy) (st : RunState) (e : Event)
    (x : Nat) (hx : x ∈ st.returned) : x ∈ (cgStep T G st e).returned := by
  cases e with
  | taskDone i =>
    by_cases h : i < T.n ∧ i ∉ st.returned
    · cases ho : T.outcome i with
      | none =>
        rw [cgStep_taskDone_none T G st i h ho]
        exact List.mem_append.mpr (Or.inl hx)
      | some er =>
        rw [cgStep_taskDone_some T G st i er h ho]
        exact List.mem_append.mpr (Or.inl hx)
    · rw [cgStep_taskDone_skip T G st i h]; exact hx
  | sigArrive s =>
    by_cases h : st.notifying ∧ relays G.sigs s
    · rw [cgStep_sig_on T G st s h]; exact hx
    · rw [cgStep_sig_off T G st s h]; exact hx

theorem cgStep_self_mem (T : Tasks) (G : GPolicy) (st : RunState) (i : Nat)
    (hi : i < T.n) : i ∈ (cgStep T G st (.taskDone i)).returned := by
  by_cases h : i < T.n ∧ i ∉ st.returned
  · cases ho : T.outcome i with
    | none =>
      rw [cgStep_taskDone_none T G st i h ho]
      exact List.mem_append.mpr (Or.inr (List.mem_singleton.mpr rfl))
    | some er =>
      rw [cgStep_taskDone_some T G st i er h ho]
      exact List.mem_append.mpr (Or.inr (List.mem_singleton.mpr rfl))
  · rw [cgStep_taskDone_skip T G st i h]
    rcases not_and_or.mp h with h1 | h2
    · exact absurd hi h1
    · exact not_not.mp h2

theorem rgFinish_returned (T : Tasks) (st : RunState) :
    (rgFinish T st).returned = st.returned := by
  unfold rgFinish; split <;> rfl

theorem rgFinish_errs (T : Tasks) (st : RunState) :
    (rgFinish T st).errs = st.errs := by
  unfold rgFinish; split <;> rfl

theorem rgStep_returned_mono (T : Tasks) (sigs : List Sig) (st : RunState) (e : Event)
    (x : Nat) (hx : x ∈ st.returned) : x ∈ (rgStep T sigs st e).returned := by
  unfold rgStep
  rw [rgFinish_returned]
  exact cgStep_returned_mono T ⟨true, sigs⟩ st e x hx

theorem rgStep_self_mem (T : Tasks) (sigs : List Sig) (st : RunState) (i : Nat)
    (hi : i < T.n) : i ∈ (rgStep T sigs st (.taskDone i)).returned := by
  unfold rgStep
  rw [rgFinish_returned]
  exact cgStep_self_mem T ⟨true, sigs⟩ st i hi

theorem foldl_inv {α σ : Type} (f : σ → α → σ) (P : σ → Prop)
    (h : ∀ s a, P s → P (f s a)) :
    ∀ (l : List α) (s : σ), P s → P (List.foldl f s l) := by
  intro l
  induction l with
  | nil => intro s hs; exact hs
  | cons a t ih => intro s hs; exact ih (f s a) (h s a hs)

theorem foldl_inv_guarded {α σ : Type} (f : σ → α → σ) (P : σ → Prop) (Q : α → Prop)
    (h : ∀ s a, Q a → P s → P (f s a)) :
    ∀ (l : List α), (∀ a ∈ l, Q a) → ∀ (s : σ), P s → P (List.foldl f s l) := by
  intro l
  induction l with
  | nil => intro _ s hs; exact hs
  | cons a t ih =>
    intro hq s hs
    exact ih (fun b hb => hq b (List.mem_cons_of_mem a hb)) (f s a)
      (h s a (hq a (List.mem_cons_self a t)) hs)

/-- In any group model whose steps never drop a returned task and always record
a task's own completion, a task whose completion event is in the schedule has
returned by the end of the run. -/
theorem steps_mem_returned (T : Tasks) (step : RunState → Event → RunState)
    (hmono : ∀ st e x, x ∈ st.returned → x ∈ (step st e).returned)
    (hself : ∀ st i, i < T.n → i ∈ (step st (.taskDone i)).returned) :
    ∀ (sched : List Event) (st : RunState) (i : Nat), i < T.n →
      Event.taskDone i ∈ sched → i ∈ (sched.foldl step st).returned := by
  intro sched
  induction sched with
  | nil => intro st i _ hmem; exact absurd hmem (List.not_mem_nil _)
  | cons a t ih =>
    intro st i hi hmem
    rcases List.mem_cons.mp hmem with heq | ht
    · subst heq
      exact foldl_inv step (fun s => i ∈ s.returned)
        (fun s e hx => hmono s e i hx) t (step st (.taskDone i)) (hself st i hi)
    · exact ih (step st a) i hi ht

theorem waitIdxAux_sound (p : Nat → Bool) :
    ∀ (fuel k j : Nat), waitIdxAux p fuel k = some j → p j = true := by
  intro fuel
  induction fuel with
  | zero => intro k j h; exact absurd h (by simp [waitIdxAux])
  | succ f ih =>
    intro k j h
    by_cases hp : p k = true
    · simp [waitIdxAux, hp] at h
      subst h; exact hp
    · simp [waitIdxAux, hp] at h
      exact ih (k + 1) j h

theorem waitIdxAux_here (p : Nat → Bool) (fuel k : Nat) (h : p k = true) :
    waitIdxAux p (fuel + 1) k = some k := by
  simp [waitIdxAux, h]

theorem waitIdxAux_isSome (p : Nat → Bool) :
    ∀ (fuel k j : Nat), k ≤ j → j < k + fuel → p j = true →
      (waitIdxAux p fuel k).isSome := by
  intro fuel
  induction fuel with
  | zero => intro k j h1 h2 _; omega
  | succ f ih =>
    intro k j h1 h2 hp
    by_cases hk : p k = true
    · simp [waitIdxAux, hk]
    · have hne : k ≠ j := by
        intro he; subst he; exact hk hp
      simp only [waitIdxAux, if_neg hk]
      exact ih (k + 1) j (by omega) (by omega) hp

/-- Well-formedness of a run state: each task index appears at most once in the
completion list (tasks run exactly once) and every entry is a submitted task. -/
def wfState (T : Tasks) (st : RunState) : Prop :=
  st.returned.Nodup ∧ ∀ i ∈ st.returned, i < T.n

theorem cgStep_wf (T : Tasks) (G : GPolicy) (st : RunState) (e : Event)
    (h : wfState T st) : wfState T (cgStep T G st e) := by
  obtain ⟨hnd, hbd⟩ := h
  cases e with
  | taskDone i =>
    by_cases hc : i < T.n ∧ i ∉ st.returned
    · have hgoal : (st.returned ++ [i]).Nodup ∧ ∀ j ∈ st.returned ++ [i], j < T.n := by
        constructor
        · simp [List.nodup_append, hnd, hc.2]
        · intro j hj
          rcases List.mem_append.mp hj with hj1 | hj2
          · exact hbd j hj1
          · rw [List.mem_singleton.mp hj2]; exact hc.1
      cases ho : T.outcome i with
      | none => rw [cgStep_taskDone_none T G st i hc ho]; exact hgoal
      | some er => rw [cgStep_taskDone_some T G st i er hc ho]; exact hgoal
    · rw [cgStep_taskDone_skip T G st i hc]; exact ⟨hnd, hbd⟩
  | sigArrive s =>
    by_cases hc : st.notifying ∧ relays G.sigs s
    · rw [cgStep_sig_on T G st s hc]; exact ⟨hnd, hbd⟩
    · rw [cgStep_sig_off T G st s hc]; exact ⟨hnd, hbd⟩

theorem rgStep_wf (T : Tasks) (sigs : List Sig) (st : RunState) (e : Event)
    (h : wfState T st) : wfState T (rgStep T sigs st e) := by
  unfold rgStep wfState
  rw [rgFinish_returned]
  exact cgStep_wf T ⟨true, sigs⟩ st e h

theorem cgRun_wf (T : Tasks) (G : GPolicy) (sched : List Event) :
    wfState T (cgRun T G sched) :=
  foldl_inv (cgStep T G) (wfState T) (cgStep_wf T G) sched (cgInit G)
    ⟨List.nodup_nil, fun i hi => absurd hi (List.not_mem_nil i)⟩

theorem rgRun_wf (T : Tasks) (sigs : List Sig) (sched : List Event) :
    wfState T (rgRun T sigs sched) := by
  apply foldl_inv (rgStep T sigs) (wfState T) (rgStep_wf T sigs) sched (rgInit T)
  unfold rgInit wfState
  rw [rgFinish_returned]
  exact ⟨List.nodup_nil, fun i hi => absurd hi (List.not_mem_nil i)⟩

/-- The error-aggregator invariant: the collected errors are exactly the
non-nil outcomes of the returned tasks, in completion order. -/
def errsInv (T : Tasks) (st : RunState) : Prop :=
  st.errs = st.returned.filterMap T.outcome

theorem cgStep_errsInv (T : Tasks) (G : GPolicy) (st : RunState) (e : Event)
    (h : errsInv T st) : errsInv T (cgStep T G st e) := by
  cases e with
  | taskDone i =>
    by_cases hc : i < T.n ∧ i ∉ st.returned
    · cases ho : T.outcome i with
      | none =>
        rw [cgStep_taskDone_none T G st i hc ho]
        unfold errsInv at h ⊢
        simp [List.filterMap_append, ho, h]
      | some er =>
        rw [cgStep_taskDone_some T G st i er hc ho]
        unfold errsInv at h ⊢
        simp [List.filterMap_append, ho, h]
    · rw [cgStep_taskDone_skip T G st i hc]; exact h
  | sigArrive s =>
    by_cases hc : st.notifying ∧ relays G.sigs s
    · rw [cgStep_sig_on T G st s hc]; exact h
    · rw [cgStep_sig_off T G st s hc]; exact h

theorem rgStep_errsInv (T : Tasks) (sigs : List Sig) (st : RunState) (e : Event)
    (h : errsInv T st) : errsInv T (rgStep T sigs st e) := by
  unfold rgStep errsInv
  rw [rgFinish_returned, rgFinish_errs]
  exact cgStep_errsInv T ⟨true, sigs⟩ st e h

theorem cgRun_errsInv (T : Tasks) (G : GPolicy) (sched : List Event) :
    errsInv T (cgRun T G sched) :=
  foldl_inv (cgStep T G) (errsInv T) (cgStep_errsInv T G) sched (cgInit G) rfl

theorem rgRun_errsInv (T : Tasks) (sigs : List Sig) (sched : List Event) :
    errsInv T (rgRun T sigs sched) := by
  apply foldl_inv (rgStep T sigs) (errsInv T) (rgStep_errsInv T sigs) sched (rgInit T)
  unfold rgInit errsInv
  rw [rgFinish_returned, rgFinish_errs]
  rfl

theorem cgRun_mem_returned (T : Tasks) (G : GPolicy) (sched : List Event) (i : Nat)
    (hi : i < T.n) (hmem : Event.taskDone i ∈ sched) :
    i ∈ (cgRun T G sched).returned :=
  steps_mem_returned T (cgStep T G)
    (fun st e x hx => cgStep_returned_mono T G st e x hx)
    (fun st j hj => cgStep_self_mem T G st j hj)
    sched (cgInit G) i hi hmem

theorem rgRun_mem_returned (T : Tasks) (sigs : List Sig) (sched : List Event) (i : Nat)
    (hi : i < T.n) (hmem : Event.taskDone i ∈ sched) :
    i ∈ (rgRun T sigs sched).returned :=
  steps_mem_returned T (rgStep T sigs)
    (fun st e x hx => rgStep_returned_mono T sigs st e x hx)
    (fun st j hj => rgStep_self_mem T sigs st j hj)
    sched (rgInit T) i hi hmem

theorem cgWaitIdx_allReturned (T : Tasks) (G : GPolicy) (sched : List Event) (k : Nat)
    (h : cgWaitIdx T G sched = some k) :
    allReturned T (cgRun T G (sched.take k)) :=
  of_decide_eq_true (waitIdxAux_sound _ _ _ _ h)

theorem cgWaitIdx_isSome (T : Tasks) (G : GPolicy) (sched : List Event)
    (h : allReturned T (cgRun T G sched)) : (cgWaitIdx T G sched).isSome := by
  apply waitIdxAux_isSome _ _ 0 sched.length (Nat.zero_le _)
    (by omega)
  show decide (allReturned T (cgRunFrom T G (cgInit G) (sched.take sched.length))) = true
  rw [List.take_length]
  exact decide_eq_true h

theorem rgWaitIdx_cause (T : Tasks) (sigs : List Sig) (sched : List Event) (k : Nat)
    (h : rgWaitIdx T sigs sched = some k) :
    (rgRun T sigs (sched.take k)).cause.isSome :=
  waitIdxAux_sound _ _ _ _ h

theorem rgWaitIdx_isSome (T : Tasks) (sigs : List Sig) (sched : List Event)
    (h : (rgRun T sigs sched).cause.isSome) : (rgWaitIdx T sigs sched).isSome := by
  apply waitIdxAux_isSome _ _ 0 sched.length (Nat.zero_le _)
    (by omega)
  show (rgRunFrom T sigs (rgInit T) (sched.take sched.length)).cause.isSome = true
  rw [List.take_length]
  exact h

/-- C6: a signal-bridged group constructed without specifying any signals (a
nil variadic slice) watches exactly the default set, SIGINT and SIGTERM, in
both rungroup.Group.init and contextgroup.WithNotifyContext. -/
theorem c6_default_signal_set (p : Option GoCtx) (q : GoCtx) :
    defaultSignals none = [Sig.sigint, Sig.sigterm] ∧
    (rungroupInit p none).sigs = [Sig.sigint, Sig.sigterm] ∧
    (withNotifyContext q none).sigs = [Sig.sigint, Sig.sigterm] :=
  ⟨rfl, rfl, rfl⟩

/-- C10 counterexample: a group constructed with an explicitly empty but
non-nil signal list does keep the empty set rather than the default, but a
subscription registered by signal.Notify with zero signals relays every
incoming signal, so the very first signal arrival cancels the shared context:
it is false that no termination signals are watched at all. -/
theorem c10_counterexample :
    (withNotifyContext GoCtx.background (some [])).sigs = [] ∧
    (cgRun ⟨1, fun _ => none⟩ (policyOf (withNotifyContext GoCtx.background (some [])))
        [Event.sigArrive Sig.sigint]).cause
      = some (Cause.signalReceived Sig.sigint) :=
  ⟨rfl, rfl⟩

/-- C10 (amended): with an explicitly empty but non-nil signal list the
default signal set is indeed not applied (the nil check of rungroup.Group.init
and contextgroup.WithNotifyContext fires only for a nil slice), but the
resulting empty subscription relays every incoming signal, so any signal that
arrives while the subscription is registered and the context is not yet
cancelled cancels the shared context with cause signal-received. -/
theorem c10_amended_empty_list_watches_all (p : Option GoCtx) (q : GoCtx)
    (T : Tasks) (st : RunState) (s : Sig)
    (hn : st.notifying = true) (hc : st.cause = none) :
    defaultSignals (some []) = [] ∧
    (rungroupInit p (some [])).sigs = [] ∧
    (withNotifyContext q (some [])).sigs = [] ∧
    cgStep T (policyOf (withNotifyContext q (some []))) st (.sigArrive s)
      = { st with cause := some (Cause.signalReceived s) } := by
  refine ⟨rfl, rfl, rfl, ?_⟩
  rw [cgStep_sig_on T _ st s ⟨hn, Or.inl rfl⟩]
  rw [hc]
  rfl

theorem c10_amended_witness :
    defaultSignals (some []) = [] ∧
    (rungroupInit none (some [])).sigs = [] ∧
    (withNotifyContext GoCtx.background (some [])).sigs = [] ∧
    cgStep ⟨1, fun _ => none⟩ (policyOf (withNotifyContext GoCtx.background (some [])))
        (cgInit (policyOf (withNotifyContext GoCtx.background (some []))))
        (.sigArrive Sig.sigterm)
      = { cgInit (policyOf (withNotifyContext GoCtx.background (some []))) with
          cause := some (Cause.signalReceived Sig.sigterm) } :=
  c10_amended_empty_list_watches_all none GoCtx.background ⟨1, fun _ => none⟩
    (cgInit (policyOf (withNotifyContext GoCtx.background (some [])))) Sig.sigterm rfl rfl

/-- C9 counterexample: contextgroup.New stores a nil parent context without
substituting the background context, and contextgroup.Group.Go passes that nil
context straight to the task. -/
theorem c9_counterexample :
    contextgroupTaskCtx (contextgroupNew none) = none := rfl

/-- C9 (amended): tasks of a zero-value group, of any ctxgroup group, and of
any rungroup group receive a non-nil context, with nil parents replaced by the
background context; but contextgroup.New keeps a nil parent as is, so only its
non-nil parents reach tasks unchanged. -/
theorem c9_amended_nonnil_contexts (s : Option GoCtx) (p : Option GoCtx)
    (signals : Option (List Sig)) (c : GoCtx) :
    ctxgroupTaskCtx none = some GoCtx.background ∧
    (ctxgroupTaskCtx s).isSome = true ∧
    contextgroupTaskCtx contextgroupZero = some GoCtx.background ∧
    (rungroupTaskCtx (rungroupInit p signals)).isSome = true ∧
    (rungroupInit none signals).ctx
      = GoCtx.notifyDerived GoCtx.background (defaultSignals signals) ∧
    contextgroupTaskCtx (contextgroupNew (some c)) = some c :=
  ⟨rfl, rfl, rfl, rfl, rfl, rfl⟩

/-- C4: on a group with zero submitted tasks, wait() of both the
contextgroup/ctxgroup variants and the rungroup variant unblocks immediately
(after no events at all, whatever the schedule holds) and yields a nil
aggregate error. -/
theorem c4_zero_tasks (f : Nat → Option Err) (G : GPolicy) (sigs : List Sig)
    (sched : List Event) :
    cgWaitIdx ⟨0, f⟩ G sched = some 0 ∧
    combined (cgRun ⟨0, f⟩ G (sched.take 0)).errs = none ∧
    rgWaitIdx ⟨0, f⟩ sigs sched = some 0 ∧
    rgWaitResult ⟨0, f⟩ sigs sched = some none := by
  have hcg : cgWaitIdx ⟨0, f⟩ G sched = some 0 := by
    unfold cgWaitIdx cgWaitIdxFrom
    exact waitIdxAux_here _ sched.length 0
      (decide_eq_true (fun i hi => absurd hi (Nat.not_lt_zero i)))
  have hrg : rgWaitIdx ⟨0, f⟩ sigs sched = some 0 := by
    unfold rgWaitIdx rgWaitIdxFrom
    exact waitIdxAux_here _ sched.length 0 rfl
  refine ⟨hcg, rfl, hrg, ?_⟩
  unfold rgWaitResult
  rw [hrg]
  rfl

/-- C1 counterexample: a rungroup with one submitted task that has not yet
returned: when SIGINT arrives, the shared context is cancelled and Wait
(blocking only on the context's done channel) returns while the task is still
running, so wait() does return before every submitted task has returned. -/
theorem c1_counterexample :
    rgWaitIdx ⟨1, fun _ => none⟩ [Sig.sigint, Sig.sigterm]
        [Event.sigArrive Sig.sigint] = some 1 ∧
    (rgRun ⟨1, fun _ => none⟩ [Sig.sigint, Sig.sigterm]
        ([Event.sigArrive Sig.sigint].take 1)).returned = [] ∧
    (rgRun ⟨1, fun _ => none⟩ [Sig.sigint, Sig.sigterm]
        ([Event.sigArrive Sig.sigint].take 1)).cause.isSome = true :=
  ⟨rfl, rfl, rfl⟩

/-- C1 (amended): for the ctxgroup/contextgroup variants, whose Wait blocks on
the task wait-group, wait() returns only once every submitted task has
returned control, each task having run exactly once; the rungroup variant may
instead return upon context cancellation while tasks are still running. -/
theorem c1_amended_wait_drains (T : Tasks) (G : GPolicy) (sched : List Event) (k : Nat)
    (h : cgWaitIdx T G sched = some k) :
    allReturned T (cgRun T G (sched.take k)) ∧
    (cgRun T G (sched.take k)).returned.Nodup ∧
    ∀ i ∈ (cgRun T G (sched.take k)).returned, i < T.n := by
  obtain ⟨hnd, hbd⟩ := cgRun_wf T G (sched.take k)
  exact ⟨cgWaitIdx_allReturned T G sched k h, hnd, hbd⟩

theorem c1_amended_witness :
    allReturned ⟨1, fun _ => none⟩
        (cgRun ⟨1, fun _ => none⟩ ⟨false, []⟩ ([Event.taskDone 0].take 1)) ∧
    (cgRun ⟨1, fun _ => none⟩ ⟨false, []⟩ ([Event.taskDone 0].take 1)).returned.Nodup ∧
    ∀ i ∈ (cgRun ⟨1, fun _ => none⟩ ⟨false, []⟩ ([Event.taskDone 0].take 1)).returned,
      i < (Tasks.mk 1 fun _ => none).n :=
  c1_amended_wait_drains ⟨1, fun _ => none⟩ ⟨false, []⟩ [Event.taskDone 0] 1 rfl

/-- C5: cancellation is idempotent (only the first recorded cause survives any
later cancel request), the post-wait cleanup of contextgroup.Wait is idempotent
and preserves the completion list and the combined error, and a second wait on
a finished group unblocks immediately (after zero further events, whatever the
schedule) with the same result and without re-running any task, for both the
contextgroup and the rungroup variants. -/
theorem c5_idempotence :
    (∀ (c : Option Cause) (a b : Cause),
        cancelFirst (cancelFirst c a) b = cancelFirst c a) ∧
    (∀ (G : GPolicy) (st : RunState), cgWaitPost G (cgWaitPost G st) = cgWaitPost G st) ∧
    (∀ (G : GPolicy) (st : RunState),
        (cgWaitPost G st).returned = st.returned ∧
        combined (cgWaitPost G st).errs = combined st.errs) ∧
    (∀ (T : Tasks) (G : GPolicy) (st : RunState) (sched : List Event),
        allReturned T st → cgWaitIdxFrom T G (cgWaitPost G st) sched = some 0) ∧
    (∀ (T : Tasks) (sigs : List Sig) (st : RunState) (sched : List Event),
        st.cause.isSome → rgWaitIdxFrom T sigs st sched = some 0) := by
  have hfirst : ∀ (c : Option Cause) (a b : Cause),
      cancelFirst (cancelFirst c a) b = cancelFirst c a := by
    intro c a b; cases c <;> rfl
  have hpost : ∀ (G : GPolicy) (st : RunState),
      (cgWaitPost G st).returned = st.returned ∧
      (cgWaitPost G st).errs = st.errs := by
    intro G st; unfold cgWaitPost; split <;> exact ⟨rfl, rfl⟩
  refine ⟨hfirst, ?_, ?_, ?_, ?_⟩
  · intro G st
    cases hg : G.cancelOnErr <;> simp [cgWaitPost, hg, hfirst]
  · intro G st
    exact ⟨(hpost G st).1, by rw [(hpost G st).2]⟩
  · intro T G st sched hall
    unfold cgWaitIdxFrom
    apply waitIdxAux_here _ sched.length 0
    apply decide_eq_true
    show allReturned T (cgWaitPost G st)
    unfold allReturned
    rw [(hpost G st).1]
    exact hall
  · intro T sigs st sched hc
    unfold rgWaitIdxFrom
    exact waitIdxAux_here _ sched.length 0 hc

theorem c5_witness :
    cgWaitIdxFrom ⟨1, fun _ => none⟩ ⟨true, []⟩
        (cgWaitPost ⟨true, []⟩ ⟨[0], [], none, true⟩) [] = some 0 ∧
    rgWaitIdxFrom ⟨1, fun _ => none⟩ [] ⟨[0], [], some Cause.plain, false⟩ [] = some 0 :=
  ⟨c5_idempotence.2.2.2.1 ⟨1, fun _ => none⟩ ⟨true, []⟩ ⟨[0], [], none, true⟩ []
      (by decide),
   c5_idempotence.2.2.2.2 ⟨1, fun _ => none⟩ [] ⟨[0], [], some Cause.plain, false⟩ [] rfl⟩

/-- The invariant for a run where task i0 is the only failing task: the
aggregator holds exactly its error once it has returned (and nothing before),
and the shared context is cancelled exactly then, with cause
explicit-task-error carrying that error. -/
def oneErrInv (i0 : Nat) (e : Err) (st : RunState) : Prop :=
  (st.errs = if i0 ∈ st.returned then [e] else []) ∧
  (st.cause = if i0 ∈ st.returned then some (Cause.taskErrors [e]) else none)

theorem cgStep_oneErrInv (T : Tasks) (G : GPolicy) (hG : G.cancelOnErr = true)
    (i0 : Nat) (e : Err) (hout : T.outcome i0 = some e)
    (hothers : ∀ j < T.n, j ≠ i0 → T.outcome j = none)
    (st : RunState) (j : Nat) (h : oneErrInv i0 e st) :
    oneErrInv i0 e (cgStep T G st (.taskDone j)) := by
  obtain ⟨herr, hcau⟩ := h
  by_cases hc : j < T.n ∧ j ∉ st.returned
  · by_cases hj : j = i0
    · subst hj
      have hni : j ∉ st.returned := hc.2
      rw [cgStep_taskDone_some T G st j e hc hout]
      have herr0 : st.errs = [] := by rw [herr, if_neg hni]
      have hcau0 : st.cause = none := by rw [hcau, if_neg hni]
      have hmem : j ∈ st.returned ++ [j] :=
        List.mem_append.mpr (Or.inr (List.mem_singleton.mpr rfl))
      constructor
      · show st.errs ++ [e] = if j ∈ st.returned ++ [j] then [e] else []
        rw [if_pos hmem, herr0]
        rfl
      · show (if G.cancelOnErr then
            cancelFirst st.cause (.taskErrors (st.errs ++ [e])) else st.cause)
          = if j ∈ st.returned ++ [j] then some (Cause.taskErrors [e]) else none
        rw [if_pos hG, if_pos hmem, hcau0, herr0]
        rfl
    · have ho : T.outcome j = none := hothers j hc.1 hj
      rw [cgStep_taskDone_none T G st j hc ho]
      have hmem : i0 ∈ st.returned ++ [j] ↔ i0 ∈ st.returned := by
        rw [List.mem_append, List.mem_singleton]
        constructor
        · intro hor
          rcases hor with h1 | h2
          · exact h1
          · exact absurd h2.symm hj
        · exact Or.inl
      constructor
      · show st.errs = if i0 ∈ st.returned ++ [j] then [e] else []
        rw [herr]
        by_cases hm : i0 ∈ st.returned
        · rw [if_pos hm, if_pos (hmem.mpr hm)]
        · rw [if_neg hm, if_neg (fun hx => hm (hmem.mp hx))]
      · show st.cause = if i0 ∈ st.returned ++ [j] then some (Cause.taskErrors [e]) else none
        rw [hcau]
        by_cases hm : i0 ∈ st.returned
        · rw [if_pos hm, if_pos (hmem.mpr hm)]
        · rw [if_neg hm, if_neg (fun hx => hm (hmem.mp hx))]
  · rw [cgStep_taskDone_skip T G st j hc]
    exact ⟨herr, hcau⟩

theorem rgFinish_oneErrInv (T : Tasks) (i0 : Nat) (e : Err) (hi0 : i0 < T.n)
    (st : RunState) (h : oneErrInv i0 e st) : oneErrInv i0 e (rgFinish T st) := by
  obtain ⟨herr, hcau⟩ := h
  unfold rgFinish
  by_cases ha : allReturned T st
  · have hm : i0 ∈ st.returned := ha i0 hi0
    have hcau0 : st.cause = some (Cause.taskErrors [e]) := by rw [hcau, if_pos hm]
    rw [if_pos ha]
    constructor
    · show st.errs = if i0 ∈ st.returned then [e] else []
      exact herr
    · show cancelFirst st.cause _ = if i0 ∈ st.returned then some (Cause.taskErrors [e]) else none
      rw [hcau0, if_pos hm]
      rfl
  · rw [if_neg ha]
    exact ⟨herr, hcau⟩

theorem cgRun_oneErrInv (T : Tasks) (G : GPolicy) (hG : G.cancelOnErr = true)
    (i0 : Nat) (e : Err) (hout : T.outcome i0 = some e)
    (hothers : ∀ j < T.n, j ≠ i0 → T.outcome j = none)
    (sched : List Event) (hsched : ∀ ev ∈ sched, ∃ i, ev = Event.taskDone i) :
    oneErrInv i0 e (cgRun T G sched) := by
  apply foldl_inv_guarded (cgStep T G) (oneErrInv i0 e)
    (fun ev => ∃ i, ev = Event.taskDone i)
    (fun st a ha hP => by
      obtain ⟨i, rfl⟩ := ha
      exact cgStep_oneErrInv T G hG i0 e hout hothers st i hP)
    sched hsched (cgInit G)
  constructor
  · show ([] : List Err) = if i0 ∈ ([] : List Nat) then [e] else []
    rw [if_neg (List.not_mem_nil i0)]
  · show (none : Option Cause) = if i0 ∈ ([] : List Nat) then some (Cause.taskErrors [e]) else none
    rw [if_neg (List.not_mem_nil i0)]

theorem rgRun_oneErrInv (T : Tasks) (sigs : List Sig)
    (i0 : Nat) (e : Err) (hi0 : i0 < T.n) (hout : T.outcome i0 = some e)
    (hothers : ∀ j < T.n, j ≠ i0 → T.outcome j = none)
    (sched : List Event) (hsched : ∀ ev ∈ sched, ∃ i, ev = Event.taskDone i) :
    oneErrInv i0 e (rgRun T sigs sched) := by
  apply foldl_inv_guarded (rgStep T sigs) (oneErrInv i0 e)
    (fun ev => ∃ i, ev = Event.taskDone i)
    (fun st a ha hP => by
      obtain ⟨i, rfl⟩ := ha
      exact rgFinish_oneErrInv T i0 e hi0 _
        (cgStep_oneErrInv T ⟨true, sigs⟩ rfl i0 e hout hothers st i hP))
    sched hsched (rgInit T)
  apply rgFinish_oneErrInv T i0 e hi0
  constructor
  · show ([] : List Err) = if i0 ∈ ([] : List Nat) then [e] else []
    rw [if_neg (List.not_mem_nil i0)]
  · show (none : Option Cause) = if i0 ∈ ([] : List Nat) then some (Cause.taskErrors [e]) else none
    rw [if_neg (List.not_mem_nil i0)]

/-- C2: under the cancel-on-first-error policy (contextgroup.WithNotifyContext
and rungroup), if exactly one task fails and every other task returns nil, and
no signal intervenes, then once every task has completed wait() returns
exactly the failing task's error and the shared context's recorded cause is
explicit-task-error carrying that error, in both variants. -/
theorem c2_first_error_cause (T : Tasks) (sigs : List Sig) (i0 : Nat) (e : Err)
    (sched : List Event)
    (_hpos : 1 ≤ T.n) (hi0 : i0 < T.n)
    (hout : T.outcome i0 = some e)
    (hothers : ∀ j < T.n, j ≠ i0 → T.outcome j = none)
    (hsched : ∀ ev ∈ sched, ∃ i, ev = Event.taskDone i)
    (hall : ∀ i < T.n, Event.taskDone i ∈ sched) :
    (∃ k, cgWaitIdx T ⟨true, sigs⟩ sched = some k ∧
        combined (cgRun T ⟨true, sigs⟩ (sched.take k)).errs = some e ∧
        (cgRun T ⟨true, sigs⟩ (sched.take k)).cause = some (Cause.taskErrors [e])) ∧
    (∃ k, rgWaitIdx T sigs sched = some k ∧
        rgWaitResult T sigs sched = some (some e) ∧
        (rgRun T sigs (sched.take k)).cause = some (Cause.taskErrors [e])) := by
  have htake : ∀ k, ∀ ev ∈ sched.take k, ∃ i, ev = Event.taskDone i :=
    fun k ev hev => hsched ev (List.take_subset k sched hev)
  constructor
  · have hfull : allReturned T (cgRun T ⟨true, sigs⟩ sched) :=
      fun i hi => cgRun_mem_returned T ⟨true, sigs⟩ sched i hi (hall i hi)
    obtain ⟨k, hk⟩ := Option.isSome_iff_exists.mp (cgWaitIdx_isSome T ⟨true, sigs⟩ sched hfull)
    have hA := cgWaitIdx_allReturned T ⟨true, sigs⟩ sched k hk
    have hinv := cgRun_oneErrInv T ⟨true, sigs⟩ rfl i0 e hout hothers (sched.take k) (htake k)
    have hm : i0 ∈ (cgRun T ⟨true, sigs⟩ (sched.take k)).returned := hA i0 hi0
    refine ⟨k, hk, ?_, ?_⟩
    · rw [hinv.1, if_pos hm]
      rfl
    · rw [hinv.2, if_pos hm]
  · have hm0 : i0 ∈ (rgRun T sigs sched).returned :=
      rgRun_mem_returned T sigs sched i0 hi0 (hall i0 hi0)
    have hinvf := rgRun_oneErrInv T sigs i0 e hi0 hout hothers sched hsched
    have hfull : (rgRun T sigs sched).cause.isSome := by
      rw [hinvf.2, if_pos hm0]
      rfl
    obtain ⟨k, hk⟩ := Option.isSome_iff_exists.mp (rgWaitIdx_isSome T sigs sched hfull)
    have hs := rgWaitIdx_cause T sigs sched k hk
    have hinv := rgRun_oneErrInv T sigs i0 e hi0 hout hothers (sched.take k) (htake k)
    have hm : i0 ∈ (rgRun T sigs (sched.take k)).returned := by
      by_contra hnm
      rw [hinv.2, if_neg hnm] at hs
      exact absurd hs (by simp)
    have hcau : (rgRun T sigs (sched.take k)).cause = some (Cause.taskErrors [e]) := by
      rw [hinv.2, if_pos hm]
    refine ⟨k, hk, ?_, hcau⟩
    unfold rgWaitResult
    rw [hk]
    show some (causeResult (rgRun T sigs (sched.take k)).cause) = some (some e)
    rw [hcau]
    rfl

theorem c2_witness :
    (∃ k, cgWaitIdx ⟨2, fun i => if i = 0 then some (.msg "boom") else none⟩ ⟨true, []⟩
          [Event.taskDone 0, Event.taskDone 1] = some k ∧
        combined (cgRun ⟨2, fun i => if i = 0 then some (.msg "boom") else none⟩ ⟨true, []⟩
            ([Event.taskDone 0, Event.taskDone 1].take k)).errs = some (.msg "boom") ∧
        (cgRun ⟨2, fun i => if i = 0 then some (.msg "boom") else none⟩ ⟨true, []⟩
            ([Event.taskDone 0, Event.taskDone 1].take k)).cause
          = some (Cause.taskErrors [.msg "boom"])) ∧
    (∃ k, rgWaitIdx ⟨2, fun i => if i = 0 then some (.msg "boom") else none⟩ []
          [Event.taskDone 0, Event.taskDone 1] = some k ∧
        rgWaitResult ⟨2, fun i => if i = 0 then some (.msg "boom") else none⟩ []
          [Event.taskDone 0, Event.taskDone 1] = some (some (.msg "boom")) ∧
        (rgRun ⟨2, fun i => if i = 0 then some (.msg "boom") else none⟩ []
            ([Event.taskDone 0, Event.taskDone 1].take k)).cause
          = some (Cause.taskErrors [.msg "boom"])) :=
  c2_first_error_cause ⟨2, fun i => if i = 0 then some (.msg "boom") else none⟩ [] 0
    (.msg "boom") [Event.taskDone 0, Event.taskDone 1]
    (by decide) (by decide) rfl
    (by
      intro j hj hne
      interval_cases j
      · exact absurd rfl hne
      · rfl)
    (by
      intro ev hev
      fin_cases hev
      · exact ⟨0, rfl⟩
      · exact ⟨1, rfl⟩)
    (by decide)

/-- At a state where every submitted task has returned, each exactly once, the
collected error list is empty exactly when no submitted task failed. -/
theorem errs_nil_iff (T : Tasks) (st : RunState)
    (hA : allReturned T st) (hwf : wfState T st) (hE : errsInv T st) :
    st.errs = [] ↔ ∀ i < T.n, T.outcome i = none := by
  rw [hE]
  rw [List.filterMap_eq_nil_iff]
  constructor
  · intro h i hi
    exact h i (hA i hi)
  · intro h i hi
    exact h i (hwf.2 i hi)

/-- C3: under the never-cancel-on-error policy (ctxgroup and contextgroup.New),
once the schedule completes every task, wait() unblocks at a point where every
submitted task has returned exactly once, the aggregator holds exactly the
non-nil task errors in completion order, and the combined error is nil iff no
task failed. -/
theorem c3_never_cancel_combined (T : Tasks) (sched : List Event)
    (hall : ∀ i < T.n, Event.taskDone i ∈ sched) :
    ∃ k, cgWaitIdx T ⟨false, []⟩ sched = some k ∧
      allReturned T (cgRun T ⟨false, []⟩ (sched.take k)) ∧
      (cgRun T ⟨false, []⟩ (sched.take k)).returned.Nodup ∧
      (∀ i, i ∈ (cgRun T ⟨false, []⟩ (sched.take k)).returned ↔ i < T.n) ∧
      (cgRun T ⟨false, []⟩ (sched.take k)).errs
        = (cgRun T ⟨false, []⟩ (sched.take k)).returned.filterMap T.outcome ∧
      (combined (cgRun T ⟨false, []⟩ (sched.take k)).errs = none
        ↔ ∀ i < T.n, T.outcome i = none) := by
  have hfull : allReturned T (cgRun T ⟨false, []⟩ sched) :=
    fun i hi => cgRun_mem_returned T ⟨false, []⟩ sched i hi (hall i hi)
  obtain ⟨k, hk⟩ := Option.isSome_iff_exists.mp (cgWaitIdx_isSome T ⟨false, []⟩ sched hfull)
  have hA := cgWaitIdx_allReturned T ⟨false, []⟩ sched k hk
  have hwf := cgRun_wf T ⟨false, []⟩ (sched.take k)
  have hE := cgRun_errsInv T ⟨false, []⟩ (sched.take k)
  refine ⟨k, hk, hA, hwf.1, ?_, hE, ?_⟩
  · intro i
    exact ⟨fun hm => hwf.2 i hm, fun hi => hA i hi⟩
  · rw [combined_eq_none_iff]
    exact errs_nil_iff T _ hA hwf hE

theorem c3_witness :
    ∃ k, cgWaitIdx ⟨2, fun i => if i = 0 then some (.msg "disk full") else none⟩
        ⟨false, []⟩ [Event.taskDone 1, Event.taskDone 0] = some k ∧
      allReturned ⟨2, fun i => if i = 0 then some (.msg "disk full") else none⟩
        (cgRun ⟨2, fun i => if i = 0 then some (.msg "disk full") else none⟩ ⟨false, []⟩
          ([Event.taskDone 1, Event.taskDone 0].take k)) ∧
      (cgRun ⟨2, fun i => if i = 0 then some (.msg "disk full") else none⟩ ⟨false, []⟩
          ([Event.taskDone 1, Event.taskDone 0].take k)).returned.Nodup ∧
      (∀ i, i ∈ (cgRun ⟨2, fun i => if i = 0 then some (.msg "disk full") else none⟩
          ⟨false, []⟩ ([Event.taskDone 1, Event.taskDone 0].take k)).returned ↔ i < 2) ∧
      (cgRun ⟨2, fun i => if i = 0 then some (.msg "disk full") else none⟩ ⟨false, []⟩
          ([Event.taskDone 1, Event.taskDone 0].take k)).errs
        = (cgRun ⟨2, fun i => if i = 0 then some (.msg "disk full") else none⟩ ⟨false, []⟩
            ([Event.taskDone 1, Event.taskDone 0].take k)).returned.filterMap
            (fun i => if i = 0 then some (.msg "disk full") else none) ∧
      (combined (cgRun ⟨2, fun i => if i = 0 then some (.msg "disk full") else none⟩
          ⟨false, []⟩ ([Event.taskDone 1, Event.taskDone 0].take k)).errs = none
        ↔ ∀ i < 2, (if i = 0 then some (Err.msg "disk full") else none) = none) :=
  c3_never_cancel_combined ⟨2, fun i => if i = 0 then some (.msg "disk full") else none⟩
    [Event.taskDone 1, Event.taskDone 0] (by decide)

/-- On the shutdown group (no cancel on error, no signal subscription) the
shared context is never cancelled and the subscription flag stays off. -/
theorem shutdownRun_never_cancelled (T : Tasks) (sched : List Event) :
    (cgRun T shutdownPolicy sched).cause = none ∧
    (cgRun T shutdownPolicy sched).notifying = false := by
  apply foldl_inv (cgStep T shutdownPolicy)
    (fun st => st.cause = none ∧ st.notifying = false)
  · intro st e h
    obtain ⟨hc, hn⟩ := h
    cases e with
    | taskDone i =>
      by_cases hg : i < T.n ∧ i ∉ st.returned
      · cases ho : T.outcome i with
        | none => rw [cgStep_taskDone_none T shutdownPolicy st i hg ho]; exact ⟨hc, hn⟩
        | some er =>
          rw [cgStep_taskDone_some T shutdownPolicy st i er hg ho]
          exact ⟨hc, hn⟩
      · rw [cgStep_taskDone_skip T shutdownPolicy st i hg]; exact ⟨hc, hn⟩
    | sigArrive s =>
      rw [cgStep_sig_off T shutdownPolicy st s (fun hx => by rw [hn] at hx; exact absurd hx.1 (by simp))]
      exact ⟨hc, hn⟩
  · exact ⟨rfl, rfl⟩

/-- C7: ShutdownAll (Shutdown and ShutdownTimeout, both variants of exec.go)
runs every target under the never-cancel policy: the shared context is never
cancelled by a task error, wait() unblocks only once every target has
returned, ShutdownTimeout hands targets a deadline-derived context, and the
returned value wraps the combined error of all targets, nil iff no target
failed. -/
theorem c7_shutdown_all (ctx : GoCtx) (d : Nat) (T : Tasks) (sched : List Event)
    (hall : ∀ i < T.n, Event.taskDone i ∈ sched) :
    hasDeadline (shutdownTimeoutCtx ctx d) = true ∧
    shutdownTaskCtx (shutdownTimeoutCtx ctx d) = GoCtx.timeoutDerived ctx d ∧
    shutdownPolicy.cancelOnErr = false ∧
    (∀ sched', (cgRun T shutdownPolicy sched').cause = none) ∧
    ∃ k, cgWaitIdx T shutdownPolicy sched = some k ∧
      allReturned T (cgRun T shutdownPolicy (sched.take k)) ∧
      shutdownWait T sched
        = some (errorsWrap ErrDuringShutdown
            (combined (cgRun T shutdownPolicy (sched.take k)).errs)) ∧
      (shutdownWait T sched = some none ↔ ∀ i < T.n, T.outcome i = none) := by
  have hfull : allReturned T (cgRun T shutdownPolicy sched) :=
    fun i hi => cgRun_mem_returned T shutdownPolicy sched i hi (hall i hi)
  obtain ⟨k, hk⟩ := Option.isSome_iff_exists.mp (cgWaitIdx_isSome T shutdownPolicy sched hfull)
  have hA := cgWaitIdx_allReturned T shutdownPolicy sched k hk
  have hwf := cgRun_wf T shutdownPolicy (sched.take k)
  have hE := cgRun_errsInv T shutdownPolicy (sched.take k)
  have hres : shutdownWait T sched
      = some (errorsWrap ErrDuringShutdown
          (combined (cgRun T shutdownPolicy (sched.take k)).errs)) := by
    unfold shutdownWait
    rw [hk]
    rfl
  refine ⟨rfl, rfl, rfl, fun sched' => (shutdownRun_never_cancelled T sched').1,
    k, hk, hA, hres, ?_⟩
  rw [hres]
  rw [Option.some_inj]
  rw [errorsWrap_eq_none_iff]
  rw [combined_eq_none_iff]
  exact errs_nil_iff T _ hA hwf hE

theorem c7_witness :
    hasDeadline (shutdownTimeoutCtx GoCtx.background 5) = true ∧
    shutdownTaskCtx (shutdownTimeoutCtx GoCtx.background 5)
      = GoCtx.timeoutDerived GoCtx.background 5 ∧
    shutdownPolicy.cancelOnErr = false ∧
    (∀ sched', (cgRun ⟨1, fun _ => some (.msg "disk full")⟩ shutdownPolicy sched').cause
      = none) ∧
    ∃ k, cgWaitIdx ⟨1, fun _ => some (.msg "disk full")⟩ shutdownPolicy
        [Event.taskDone 0] = some k ∧
      allReturned ⟨1, fun _ => some (.msg "disk full")⟩
        (cgRun ⟨1, fun _ => some (.msg "disk full")⟩ shutdownPolicy
          ([Event.taskDone 0].take k)) ∧
      shutdownWait ⟨1, fun _ => some (.msg "disk full")⟩ [Event.taskDone 0]
        = some (errorsWrap ErrDuringShutdown
            (combined (cgRun ⟨1, fun _ => some (.msg "disk full")⟩ shutdownPolicy
              ([Event.taskDone 0].take k)).errs)) ∧
      (shutdownWait ⟨1, fun _ => some (.msg "disk full")⟩ [Event.taskDone 0] = some none
        ↔ ∀ i < 1, (fun _ => some (Err.msg "disk full")) i = none) :=
  c7_shutdown_all GoCtx.background 5 ⟨1, fun _ => some (.msg "disk full")⟩
    [Event.taskDone 0] (by decide)

/-- Once the shared context is cancelled, a further signal arrival leaves the
run state entirely unchanged (Go context cancellation is single-fire). -/
theorem cgStep_sig_noop_cancelled (T : Tasks) (G : GPolicy) (st : RunState) (s : Sig)
    (h : st.cause.isSome) : cgStep T G st (.sigArrive s) = st := by
  by_cases hg : st.notifying ∧ relays G.sigs s
  · rw [cgStep_sig_on T G st s hg]
    obtain ⟨c, hc⟩ := Option.isSome_iff_exists.mp h
    rw [hc]
    show { st with cause := some c } = st
    rw [← hc]
  · exact cgStep_sig_off T G st s hg

/-- C8 counterexample: in a rungroup, when a signal cancels the shared
context while a task is still running, Wait's blocking condition is satisfied
and Wait returns, yet the signal subscription is still registered (it is only
released by the helper goroutine once g.grp.Wait() returns, i.e. once all
tasks have returned). -/
theorem c8_counterexample :
    rgWaitIdx ⟨1, fun _ => none⟩ [Sig.sigint, Sig.sigterm]
        [Event.sigArrive Sig.sigint] = some 1 ∧
    (rgRun ⟨1, fun _ => none⟩ [Sig.sigint, Sig.sigterm]
        ([Event.sigArrive Sig.sigint].take 1)).cause.isSome = true ∧
    (rgRun ⟨1, fun _ => none⟩ [Sig.sigint, Sig.sigterm]
        ([Event.sigArrive Sig.sigint].take 1)).notifying = true :=
  ⟨rfl, rfl, rfl⟩

/-- C8 (amended): the rungroup signal subscription is released as soon as
every task has returned (not as soon as wait()'s blocking condition holds);
the contextgroup variant releases it when its wait() returns; and in every
variant a signal delivered after the context is already cancelled changes
nothing: not the state, not the cause, not the result. -/
theorem c8_amended_unsubscribe (T : Tasks) (sigs : List Sig) (sched : List Event)
    (G : GPolicy) (st : RunState) :
    (allReturned T (rgRun T sigs sched) → (rgRun T sigs sched).notifying = false) ∧
    (∀ st0 : RunState, (cgWaitPost ⟨true, sigs⟩ st0).notifying = false) ∧
    (st.cause.isSome →
      ∀ sched', (∀ ev ∈ sched', ∃ s, ev = Event.sigArrive s) →
        cgRunFrom T G st sched' = st) := by
  refine ⟨?_, fun st0 => by unfold cgWaitPost; rw [if_pos rfl], ?_⟩
  · intro hA
    have himg : ∃ st0, rgRun T sigs sched = rgFinish T st0 := by
      rcases List.eq_nil_or_concat sched with hnil | ⟨l, e, rfl⟩
      · exact ⟨_, by rw [hnil]; rfl⟩
      · refine ⟨cgStep T ⟨true, sigs⟩ (rgRunFrom T sigs (rgInit T) l) e, ?_⟩
        unfold rgRun rgRunFrom
        rw [List.concat_eq_append, List.foldl_append]
        rfl
    obtain ⟨st0, hst0⟩ := himg
    rw [hst0]
    rw [hst0] at hA
    unfold rgFinish at hA ⊢
    by_cases ha : allReturned T st0
    · rw [if_pos ha]
    · rw [if_neg ha] at hA ⊢
      exact absurd hA ha
  · intro hc sched'
    induction sched' generalizing st with
    | nil => intro _; rfl
    | cons a t ih =>
      intro hq
      obtain ⟨s, rfl⟩ := hq a (List.mem_cons_self a t)
      show cgRunFrom T G (cgStep T G st (.sigArrive s)) t = st
      rw [cgStep_sig_noop_cancelled T G st s hc]
      exact ih st hc (fun b hb => hq b (List.mem_cons_of_mem _ hb))

theorem c8_amended_witness :
    (rgRun ⟨1, fun _ => none⟩ [] [Event.taskDone 0]).notifying = false ∧
    cgRunFrom ⟨1, fun _ => none⟩ ⟨true, [Sig.sigint]⟩
        ⟨[], [], some Cause.plain, true⟩ [Event.sigArrive Sig.sigint]
      = ⟨[], [], some Cause.plain, true⟩ :=
  ⟨(c8_amended_unsubscribe ⟨1, fun _ => none⟩ [] [Event.taskDone 0] ⟨true, []⟩
      ⟨[], [], none, false⟩).1 (by decide),
   (c8_amended_unsubscribe ⟨1, fun _ => none⟩ [] [Event.taskDone 0] ⟨true, [Sig.sigint]⟩
      ⟨[], [], some Cause.plain, true⟩).2.2 rfl [Event.sigArrive Sig.sigint]
      (fun ev hev => ⟨Sig.sigint, List.mem_singleton.mp hev⟩)⟩

end Webapp
